import Mathlib

/-!
Verification of the oterm persistence layer (`src/oterm/store/store.py`).

The store is modelled as a pure state `DBState` holding the sqlite header
`user_version` integer and the rows of the `chat` and `message` tables.
Each `Store` method becomes a Lean function on `DBState`; sqlite/aiosqlite
behaviour is embedded at the interface (e.g. `PRAGMA user_version`,
`INSERT OR REPLACE`, `AUTOINCREMENT`, foreign-key enforcement defaults).
Python exceptions become `Except`/`Option` results; a failing migration
step carries the database state at the moment of failure, since steps
mutate the file in place.

Semantic versions are modelled as `(major, minor, patch)` triples of
naturals; `packaging.version.parse` comparison on release strings is the
lexicographic order on these triples.
-/

set_option autoImplicit false

namespace Oterm

/-- A semantic version `(major, minor, patch)`. -/
abbrev Version := Nat × Nat × Nat

/-- The order `packaging.version.parse` induces on `"major.minor.patch"`
release strings: lexicographic comparison of the components (`<=`). -/
def vle (a b : Version) : Bool :=
  decide (a.1 < b.1) ||
    (decide (a.1 = b.1) &&
      (decide (a.2.1 < b.2.1) ||
        (decide (a.2.1 = b.2.1) && decide (a.2.2 ≤ b.2.2))))

/-- Strict lexicographic comparison of versions (`<`). -/
def vlt (a b : Version) : Bool :=
  decide (a.1 < b.1) ||
    (decide (a.1 = b.1) &&
      (decide (a.2.1 < b.2.1) ||
        (decide (a.2.1 = b.2.1) && decide (a.2.2 < b.2.2))))

/-- Modelled from the spec: `semantic_version_to_int` lives in
`oterm/utils.py`, which is absent from `src/`; per the spec the codec packs
each component into a fixed-width decimal digit group,
`major * 1000000 + minor * 1000 + patch`. -/
def semantic_version_to_int (v : Version) : Nat :=
  v.1 * 1000000 + v.2.1 * 1000 + v.2.2

/-- Modelled from the spec: `int_to_semantic_version` lives in
`oterm/utils.py`, absent from `src/`; the inverse decode of the packed
integer, with `0` decoding to version `0.0.0`. -/
def int_to_semantic_version (n : Nat) : Version :=
  (n / 1000000, n / 1000 % 1000, n % 1000)

/-- One row of the `chat` table.  The `parameters` and `tools` columns hold
the JSON text exactly as written by `json.dumps`. -/
structure ChatRow where
  id : Nat
  name : String
  model : String
  system : Option String
  format : String
  parameters : String
  keep_alive : Int
  tools : String
deriving DecidableEq

/-- One row of the `message` table. -/
structure MessageRow where
  id : Nat
  chat_id : Nat
  author : String
  text : String
deriving DecidableEq

/-- The persistent database state: the `PRAGMA user_version` header slot
plus the rows of the two tables, in rowid order. -/
structure DBState where
  user_version : Nat
  chat : List ChatRow
  message : List MessageRow
deriving DecidableEq

/-- `Store.set_user_version`: stamp the header with the encoded version. -/
def set_user_version (v : Version) (db : DBState) : DBState :=
  { db with user_version := semantic_version_to_int v }

/-- `Store.get_user_version`: decode the header slot. -/
def get_user_version (db : DBState) : Version :=
  int_to_semantic_version db.user_version

/-- A migration step from the `upgrades` registry: it receives the database
file and mutates it in place; on failure (a raised exception of type `E`)
the database is left in the state the step produced so far. -/
def UpgradeAction (E : Type) : Type :=
  DBState → Except (E × DBState) DBState

/-- One registry entry: a target version and its ordered steps. -/
abbrev MigrationEntry (E : Type) := Version × List (UpgradeAction E)

/-- The guard of the loop in `Store.get_store` (store.py lines 63-66):
`parse(current_version) >= parse(version) and parse(version) > parse(db_version)`. -/
def eligible (current dbv v : Version) : Bool :=
  vle v current && vlt dbv v

/-- Run the steps of one entry in order (store.py lines 67-68); the first
raised exception propagates. -/
def runSteps {E : Type} : List (UpgradeAction E) → DBState → Except (E × DBState) DBState
  | [], db => .ok db
  | s :: rest, db =>
    match s db with
    | .ok db2 => runSteps rest db2
    | .error x => .error x

/-- The registry walk of `Store.get_store` (store.py lines 63-68):
`db_version` is read once before the loop and stays fixed while the
entries are visited in declaration order. -/
def runUpgrades {E : Type} (current dbv : Version) :
    List (MigrationEntry E) → DBState → Except (E × DBState) DBState
  | [], db => .ok db
  | (v, steps) :: rest, db =>
    if eligible current dbv v then
      match runSteps steps db with
      | .ok db2 => runUpgrades current dbv rest db2
      | .error x => .error x
    else
      runUpgrades current dbv rest db

/-- `Store.get_store` (store.py lines 23-71).  `dbFileExists` is the
`self.db_path.exists()` check: when false, the base schema is created with
both tables empty and the header is stamped with the current application
version; when true, the registry is walked and then the header is
re-stamped to the current version, unless a step raised, in which case the
exception propagates and the stamping line is never reached. -/
def get_store {E : Type} (dbFileExists : Bool) (current : Version)
    (entries : List (MigrationEntry E)) (db : DBState) :
    Except (E × DBState) DBState :=
  if dbFileExists then
    match runUpgrades current (get_user_version db) entries db with
    | .ok db2 => .ok (set_user_version current db2)
    | .error x => .error x
  else
    .ok { user_version := semantic_version_to_int current, chat := [], message := [] }

/-- The interface of Python's `json` module as the Store uses it:
`dumps` serialises the opaque parameter bag or tool list to the column
text, `loads` parses it back (`none` models a raised decode error).  The
Store never inspects the values, so the codec is a parameter of the
embedding. -/
structure Codec (α : Type) where
  dumps : α → String
  loads : String → Option α

/-- The rowid sqlite `AUTOINCREMENT` assigns to a fresh `chat` row: one
more than the largest id in use. -/
def next_chat_id (db : DBState) : Nat :=
  (db.chat.map ChatRow.id).foldr Nat.max 0 + 1

/-- `Store.save_chat` (store.py lines 85-115): `INSERT OR REPLACE` with a
possibly-NULL id.  A NULL id gets a fresh autoincrement rowid; an explicit
id replaces the conflicting row in place (same rowid, hence same scan
position) or appends when no row has that id.  Returns the new state and
the `RETURNING id` value. -/
def save_chat {P T : Type} (pc : Codec P) (tc : Codec T) (db : DBState)
    (id : Option Nat) (name model : String) (system : Option String)
    (format : String) (parameters : P) (keep_alive : Int) (tools : T) :
    DBState × Nat :=
  let i := match id with
    | some i => i
    | none => next_chat_id db
  let row : ChatRow :=
    { id := i, name := name, model := model, system := system,
      format := format, parameters := pc.dumps parameters,
      keep_alive := keep_alive, tools := tc.dumps tools }
  if db.chat.any (fun c => c.id == i) then
    ({ db with chat := db.chat.map (fun c => if c.id == i then row else c) }, i)
  else
    ({ db with chat := db.chat ++ [row] }, i)

/-- `Store.rename_chat` (store.py lines 117-122): update only `name` on
the rows whose id matches. -/
def rename_chat (db : DBState) (id : Nat) (name : String) : DBState :=
  { db with chat := db.chat.map (fun c => if c.id == id then { c with name := name } else c) }

/-- `Store.edit_chat` (store.py lines 124-156): update `name`, `system`,
`format`, `parameters`, `keep_alive` and `tools` on the rows whose id
matches; `model` and `id` are not in the SET list. -/
def edit_chat {P T : Type} (pc : Codec P) (tc : Codec T) (db : DBState)
    (id : Nat) (name : String) (system : Option String) (format : String)
    (parameters : P) (keep_alive : Int) (tools : T) : DBState :=
  { db with chat := db.chat.map (fun c =>
      if c.id == id then
        { c with name := name, system := system, format := format,
                 parameters := pc.dumps parameters,
                 keep_alive := keep_alive, tools := tc.dumps tools }
      else c) }

/-- `Store.get_chat` (store.py lines 184-213): the first row whose id
matches, with `parameters` and `tools` passed through `json.loads`;
`none` models both the no-row case (Python returns `None`) and a raised
JSON decode error. -/
def get_chat {P T : Type} (pc : Codec P) (tc : Codec T) (db : DBState) (id : Nat) :
    Option (Nat × String × String × Option String × String × P × Int × T) :=
  match db.chat.find? (fun c => c.id == id) with
  | none => none
  | some c =>
    match pc.loads c.parameters, tc.loads c.tools with
    | some p, some t =>
      some (c.id, c.name, c.model, c.system, c.format, p, c.keep_alive, t)
    | _, _ => none

/-- `Store.delete_chat` (store.py lines 215-218): `DELETE FROM chat WHERE
id = :id` on a fresh `aiosqlite.connect` connection.  No connection in
store.py ever issues `PRAGMA foreign_keys = ON`, and sqlite leaves
foreign-key enforcement OFF by default on every new connection, so the
`ON DELETE CASCADE` declared on `message.chat_id` is not enforced: only
the chat rows are removed and the message rows stay behind. -/
def delete_chat (db : DBState) (id : Nat) : DBState :=
  { db with chat := db.chat.filter (fun c => c.id != id) }

/-- Spec-side comparator for the delete operation, following the spec's
words: deleting a chat by id also removes, via the declared foreign-key
cascade, every message row whose `chat_id` references it. -/
def delete_chat_cascade_spec (db : DBState) (id : Nat) : DBState :=
  { db with chat := db.chat.filter (fun c => c.id != id),
            message := db.message.filter (fun m => m.chat_id != id) }

/-- Modelled from the spec: the `Author` enum lives in `oterm/types.py`,
absent from `src/`; per the spec it enumerates the user / assistant /
system-equivalent message authors, stored as text. -/
inductive Author where
  | user
  | assistant
  | system
deriving DecidableEq

/-- Modelled from the spec: the Python enum constructor `Author(text)`,
which raises `ValueError` (here `none`) on any text that is not a declared
enum value. -/
def Author.fromText : String → Option Author := fun s =>
  if s = "user" then some .user
  else if s = "assistant" then some .assistant
  else if s = "system" then some .system
  else none

/-- The list comprehension of `Store.get_messages` (store.py line 246):
each row's author text goes through the `Author` constructor, and the
first invalid one aborts the whole call. -/
def authorRows : List MessageRow → Option (List (Nat × Author × String))
  | [] => some []
  | m :: rest =>
    match Author.fromText m.author with
    | none => none
    | some a =>
      match authorRows rest with
      | none => none
      | some l => some ((m.id, a, m.text) :: l)

/-- `Store.get_messages` (store.py lines 235-247): the rows with the given
`chat_id`, in rowid order, each author converted through the enum. -/
def get_messages (db : DBState) (chat_id : Nat) :
    Option (List (Nat × Author × String)) :=
  authorRows (db.message.filter (fun m => m.chat_id == chat_id))

/-! ### Order lemmas on versions -/

theorem vle_vlt_asymm (a b : Version) (h : vle a b = true) : vlt b a = false := by
  obtain ⟨a1, a2, a3⟩ := a
  obtain ⟨b1, b2, b3⟩ := b
  simp only [vle, vlt, Bool.or_eq_true, Bool.and_eq_true, decide_eq_true_eq] at h
  simp only [vlt, Bool.or_eq_false_iff, Bool.and_eq_false_iff,
    decide_eq_false_iff_not, not_lt]
  omega

/-! ### Claims about the version codec (spec-modelled, `oterm/utils.py`) -/

/-- C5: for every semantic version with each component below 1000,
decoding the encoded integer returns the version exactly:
`int_to_semantic_version (semantic_version_to_int v) = v`. -/
theorem decode_encode_roundtrip (v : Version)
    (h1 : v.1 < 1000) (h2 : v.2.1 < 1000) (h3 : v.2.2 < 1000) :
    int_to_semantic_version (semantic_version_to_int v) = v := by
  obtain ⟨a, b, c⟩ := v
  simp only [semantic_version_to_int, int_to_semantic_version] at *
  refine Prod.ext ?_ (Prod.ext ?_ ?_) <;> simp <;> omega

/-- Witness for C5 at the concrete version 12.34.999. -/
theorem decode_encode_roundtrip_witness :
    int_to_semantic_version (semantic_version_to_int (12, 34, 999)) = (12, 34, 999) :=
  decode_encode_roundtrip (12, 34, 999) (by decide) (by decide) (by decide)

/-- C6: the encoding is strictly monotonic: for representable versions
(components below 1000), `a > b` lexicographically implies
`semantic_version_to_int a > semantic_version_to_int b`. -/
theorem encode_strictMono (a b : Version)
    (ha1 : a.1 < 1000) (ha2 : a.2.1 < 1000) (ha3 : a.2.2 < 1000)
    (hb1 : b.1 < 1000) (hb2 : b.2.1 < 1000) (hb3 : b.2.2 < 1000)
    (hgt : vlt b a = true) :
    semantic_version_to_int b < semantic_version_to_int a := by
  obtain ⟨a1, a2, a3⟩ := a
  obtain ⟨b1, b2, b3⟩ := b
  simp only [vlt, Bool.or_eq_true, Bool.and_eq_true, decide_eq_true_eq] at hgt
  simp only [semantic_version_to_int] at *
  omega

/-- Witness for C6: 1.2.3 > 1.2.2 gives a strictly larger encoding. -/
theorem encode_strictMono_witness :
    semantic_version_to_int (1, 2, 2) < semantic_version_to_int (1, 2, 3) :=
  encode_strictMono (1, 2, 3) (1, 2, 2) (by decide) (by decide) (by decide)
    (by decide) (by decide) (by decide) (by decide)

/-! ### The registry walk: which actions run -/

theorem runSteps_append {E : Type} (l1 l2 : List (UpgradeAction E)) (db : DBState) :
    runSteps (l1 ++ l2) db =
      match runSteps l1 db with
      | .ok d => runSteps l2 d
      | .error x => .error x := by
  induction l1 generalizing db with
  | nil => rfl
  | cons s rest ih =>
    simp only [List.cons_append, runSteps]
    cases s db with
    | ok d => exact ih d
    | error x => rfl

theorem runUpgrades_eq_runSteps_filtered {E : Type} (current dbv : Version)
    (entries : List (MigrationEntry E)) (db : DBState) :
    runUpgrades current dbv entries db =
      runSteps ((entries.filter (fun p => eligible current dbv p.1)).flatMap
        (fun p => p.2)) db := by
  induction entries generalizing db with
  | nil => rfl
  | cons p rest ih =>
    obtain ⟨v, steps⟩ := p
    cases h : eligible current dbv v with
    | true =>
      have hf : List.filter (fun p => eligible current dbv p.1) ((v, steps) :: rest)
          = (v, steps) :: List.filter (fun p => eligible current dbv p.1) rest :=
        List.filter_cons_of_pos (by simpa using h)
      rw [hf, List.flatMap_cons, runSteps_append]
      simp only [runUpgrades, h, if_true]
      cases runSteps steps db with
      | ok d => exact ih d
      | error x => rfl
    | false =>
      have hf : List.filter (fun p => eligible current dbv p.1) ((v, steps) :: rest)
          = List.filter (fun p => eligible current dbv p.1) rest :=
        List.filter_cons_of_neg (by simpa using h)
      rw [hf]
      simp only [runUpgrades, h, Bool.false_eq_true, if_false]
      exact ih db

/-- C1: on the upgrade path the registry is walked in declaration order and
an entry's actions run iff `current >= target` and `target > db_version`
(first conjunct: the actions executed are exactly the concatenation, in
declaration order, of the actions of the entries passing that filter); an
entry whose target exceeds the running application's version is never
eligible (second conjunct); and when the stamped version already equals the
current version, no entry passes the filter and the walk applies zero
actions, leaving the state untouched (third conjunct). -/
theorem upgrade_applies_iff_eligible {E : Type} (current dbv : Version)
    (entries : List (MigrationEntry E)) (db : DBState) :
    (runUpgrades current dbv entries db =
      runSteps ((entries.filter (fun p => eligible current dbv p.1)).flatMap
        (fun p => p.2)) db) ∧
    (∀ p : MigrationEntry E, p ∈ entries → vlt current p.1 = true →
      eligible current dbv p.1 = false) ∧
    (dbv = current →
      entries.filter (fun p => eligible current dbv p.1) = [] ∧
      runUpgrades current dbv entries db = .ok db) := by
  refine ⟨runUpgrades_eq_runSteps_filtered current dbv entries db, ?_, ?_⟩
  · intro p _ hlt
    cases hv : vle p.1 current with
    | true =>
      have := vle_vlt_asymm p.1 current hv
      rw [this] at hlt
      exact absurd hlt (by simp)
    | false => simp [eligible, hv]
  · intro h
    subst h
    have hnil : entries.filter (fun p => eligible dbv dbv p.1) = [] := by
      refine List.filter_eq_nil_iff.mpr ?_
      intro p _
      cases hv : vle p.1 dbv with
      | true => simp [eligible, vle_vlt_asymm p.1 dbv hv]
      | false => simp [eligible, hv]
    refine ⟨hnil, ?_⟩
    rw [runUpgrades_eq_runSteps_filtered, hnil]
    rfl

/-- An empty concrete database state used by several witnesses. -/
def db0 : DBState := { user_version := 0, chat := [], message := [] }

/-- Witness for C1: with current version 1.1.0 an entry targeting 1.2.0 is
not eligible (db at 1.0.0), and with db already at 1.1.0 the walk applies
zero actions. -/
theorem upgrade_applies_iff_eligible_witness :
    eligible (1, 1, 0) (1, 0, 0) (1, 2, 0) = false ∧
    runUpgrades (E := Unit) (1, 1, 0) (1, 1, 0) [((1, 2, 0), [])] db0 = .ok db0 :=
  ⟨(upgrade_applies_iff_eligible (E := Unit) (1, 1, 0) (1, 0, 0)
      [((1, 2, 0), [])] db0).2.1 ((1, 2, 0), []) (by simp) (by decide),
   ((upgrade_applies_iff_eligible (E := Unit) (1, 1, 0) (1, 1, 0)
      [((1, 2, 0), [])] db0).2.2 rfl).2⟩

/-- C2: on the upgrade path, whenever the open succeeds the resulting
header holds the encoded current application version, even when zero
migrations ran. -/
theorem upgrade_stamps_current_unconditionally {E : Type} (current : Version)
    (entries : List (MigrationEntry E)) (db db2 : DBState)
    (h : get_store true current entries db = .ok db2) :
    db2.user_version = semantic_version_to_int current := by
  simp only [get_store, if_true] at h
  cases hr : runUpgrades current (get_user_version db) entries db with
  | ok d =>
    rw [hr] at h
    simp only [Except.ok.injEq] at h
    subst h
    rfl
  | error x =>
    rw [hr] at h
    exact absurd h (by simp)

/-- Witness for C2: opening an existing database stamped 0.0.0 with an
empty registry at current version 1.1.0 yields header 1001000. -/
theorem upgrade_stamps_current_unconditionally_witness :
    DBState.user_version { user_version := 1001000, chat := [], message := [] } =
      semantic_version_to_int (1, 1, 0) :=
  upgrade_stamps_current_unconditionally (E := Unit) (1, 1, 0) [] db0
    { user_version := 1001000, chat := [], message := [] } (by rfl)

/-! ### Failure semantics of the upgrade path -/

theorem runSteps_preserves_header {E : Type} (l : List (UpgradeAction E)) (db : DBState) :
    (∀ s ∈ l, ∀ d : DBState,
      (∀ d2, s d = .ok d2 → d2.user_version = d.user_version) ∧
      (∀ e d2, s d = .error (e, d2) → d2.user_version = d.user_version)) →
    (∀ d2, runSteps l db = .ok d2 → d2.user_version = db.user_version) ∧
    (∀ e d2, runSteps l db = .error (e, d2) → d2.user_version = db.user_version) := by
  induction l generalizing db with
  | nil =>
    intro _
    constructor
    · intro d2 h
      simp only [runSteps, Except.ok.injEq] at h
      rw [← h]
    · intro e d2 h
      exact absurd h (by simp [runSteps])
  | cons s rest ih =>
    intro hpres
    have hs := hpres s (List.mem_cons_self s rest) db
    have hrest : ∀ s2 ∈ rest, ∀ d : DBState,
        (∀ d2, s2 d = .ok d2 → d2.user_version = d.user_version) ∧
        (∀ e d2, s2 d = .error (e, d2) → d2.user_version = d.user_version) :=
      fun s2 hmem => hpres s2 (List.mem_cons_of_mem s hmem)
    cases hd : s db with
    | ok d =>
      have hfirst : d.user_version = db.user_version := hs.1 d hd
      constructor
      · intro d2 h
        simp only [runSteps, hd] at h
        exact ((ih d hrest).1 d2 h).trans hfirst
      · intro e d2 h
        simp only [runSteps, hd] at h
        exact ((ih d hrest).2 e d2 h).trans hfirst
    | error x =>
      constructor
      · intro d2 h
        simp only [runSteps, hd] at h
        exact Except.noConfusion h
      · intro e d2 h
        simp only [runSteps, hd, Except.error.injEq] at h
        obtain ⟨e0, d0⟩ := x
        have := hs.2 e0 d0 hd
        injection h with h1 h2
        rw [← h2]
        exact this

theorem runUpgrades_preserves_header {E : Type} (current dbv : Version)
    (entries : List (MigrationEntry E)) (db : DBState) :
    (∀ p ∈ entries, ∀ s ∈ p.2, ∀ d : DBState,
      (∀ d2, s d = .ok d2 → d2.user_version = d.user_version) ∧
      (∀ e d2, s d = .error (e, d2) → d2.user_version = d.user_version)) →
    (∀ d2, runUpgrades current dbv entries db = .ok d2 → d2.user_version = db.user_version) ∧
    (∀ e d2, runUpgrades current dbv entries db = .error (e, d2) →
      d2.user_version = db.user_version) := by
  induction entries generalizing db with
  | nil =>
    intro _
    constructor
    · intro d2 h
      simp only [runUpgrades, Except.ok.injEq] at h
      rw [← h]
    · intro e d2 h
      exact absurd h (by simp [runUpgrades])
  | cons p rest ih =>
    intro hpres
    obtain ⟨v, steps⟩ := p
    have hsteps := runSteps_preserves_header steps db
      (fun s hmem => hpres (v, steps) (List.mem_cons_self _ rest) s hmem)
    have hrest : ∀ p2 ∈ rest, ∀ s ∈ p2.2, ∀ d : DBState,
        (∀ d2, s d = .ok d2 → d2.user_version = d.user_version) ∧
        (∀ e d2, s d = .error (e, d2) → d2.user_version = d.user_version) :=
      fun p2 hmem => hpres p2 (List.mem_cons_of_mem _ hmem)
    cases he : eligible current dbv v with
    | true =>
      cases hd : runSteps steps db with
      | ok d =>
        have hfirst : d.user_version = db.user_version := hsteps.1 d hd
        constructor
        · intro d2 h
          simp only [runUpgrades, he, if_true, hd] at h
          exact ((ih d hrest).1 d2 h).trans hfirst
        · intro e d2 h
          simp only [runUpgrades, he, if_true, hd] at h
          exact ((ih d hrest).2 e d2 h).trans hfirst
      | error x =>
        constructor
        · intro d2 h
          simp only [runUpgrades, he, if_true, hd] at h
          exact Except.noConfusion h
        · intro e d2 h
          simp only [runUpgrades, he, if_true, hd, Except.error.injEq] at h
          obtain ⟨e0, d0⟩ := x
          have := hsteps.2 e0 d0 hd
          injection h with h1 h2
          rw [← h2]
          exact this
    | false =>
      constructor
      · intro d2 h
        simp only [runUpgrades, he, Bool.false_eq_true, if_false] at h
        exact (ih db hrest).1 d2 h
      · intro e d2 h
        simp only [runUpgrades, he, Bool.false_eq_true, if_false] at h
        exact (ih db hrest).2 e d2 h

/-- C3: when a migration step raises, the exception propagates out of
`get_store` together with the database state at the failure point, the
stamping line is never reached — so under the spec's discipline that steps
manage schema, not the header, the header keeps its pre-migration value —
and every entry's eligibility on the next open attempt is unchanged, so
the failed migration is retried rather than skipped. -/
theorem migration_failure_preserves_header {E : Type} (current : Version)
    (entries : List (MigrationEntry E)) (db : DBState) (e : E) (dbE : DBState)
    (hpres : ∀ p ∈ entries, ∀ s ∈ p.2, ∀ d : DBState,
      (∀ d2, s d = .ok d2 → d2.user_version = d.user_version) ∧
      (∀ e2 d2, s d = .error (e2, d2) → d2.user_version = d.user_version))
    (herr : runUpgrades current (get_user_version db) entries db = .error (e, dbE)) :
    get_store true current entries db = .error (e, dbE) ∧
    dbE.user_version = db.user_version ∧
    ∀ v : Version, eligible current (get_user_version dbE) v =
      eligible current (get_user_version db) v := by
  have hh := (runUpgrades_preserves_header current (get_user_version db) entries db
    hpres).2 e dbE herr
  refine ⟨?_, hh, ?_⟩
  · simp only [get_store, if_true, herr]
  · intro v
    unfold get_user_version
    rw [hh]

/-- A concrete migration step that always raises, leaving the database
untouched. -/
def failStep : UpgradeAction Unit := fun d => .error ((), d)

/-- A concrete database stamped with version 1.0.0. -/
def dbV100 : DBState := { user_version := 1000000, chat := [], message := [] }

/-- Witness for C3: a registry entry targeting 1.1.0 whose single step
raises makes the open of a 1.0.0 database under current version 1.1.0 fail
with the header still at 1.0.0. -/
theorem migration_failure_preserves_header_witness :
    get_store true (1, 1, 0) [((1, 1, 0), [failStep])] dbV100 = .error ((), dbV100) :=
  (migration_failure_preserves_header (1, 1, 0) [((1, 1, 0), [failStep])] dbV100 () dbV100
    (by
      intro p hp s hs d
      simp only [List.mem_singleton] at hp
      subst hp
      simp only [List.mem_singleton] at hs
      subst hs
      constructor
      · intro d2 h
        simp [failStep] at h
      · intro e2 d2 h
        simp only [failStep, Except.error.injEq, Prod.mk.injEq] at h
        rw [← h.2])
    (by rfl)).1

/-- C4: opening the store when the database file does not exist creates
both tables empty, stamps the header with the encoded current application
version (which decodes back to it for in-range components), and consults
no migration entry: the result is the same as with an empty registry. -/
theorem bootstrap_fresh {E : Type} (current : Version)
    (entries : List (MigrationEntry E)) (db db2 : DBState)
    (h1 : current.1 < 1000) (h2 : current.2.1 < 1000) (h3 : current.2.2 < 1000)
    (h : get_store false current entries db = .ok db2) :
    db2.chat = [] ∧ db2.message = [] ∧
    db2.user_version = semantic_version_to_int current ∧
    get_user_version db2 = current ∧
    get_store (E := E) false current [] db = .ok db2 := by
  simp only [get_store, Bool.false_eq_true, if_false, Except.ok.injEq] at h
  subst h
  refine ⟨rfl, rfl, rfl, ?_, rfl⟩
  exact decode_encode_roundtrip current h1 h2 h3

/-- Witness for C4: bootstrapping at current version 0.2.5 yields a
database whose decoded stamped version is 0.2.5. -/
theorem bootstrap_fresh_witness :
    get_user_version { user_version := 2005, chat := [], message := [] } = (0, 2, 5) :=
  (bootstrap_fresh (E := Unit) (0, 2, 5) [((0, 2, 0), [])] db0
    { user_version := 2005, chat := [], message := [] }
    (by decide) (by decide) (by decide) (by rfl)).2.2.2.1

/-! ### Deleting a chat: the declared cascade is not enforced -/

/-- A concrete database holding one chat (id 1) and one message for it. -/
def dbChat1Msg : DBState :=
  { user_version := 1001000,
    chat := [{ id := 1, name := "c", model := "m", system := none, format := "",
               parameters := "\x7b\x7d", keep_alive := 5, tools := "[]" }],
    message := [{ id := 1, chat_id := 1, author := "user", text := "hi" }] }

/-- C7 (evaluation at the failing input): deleting chat 1 removes the chat
row, but — foreign-key enforcement being off on the store's connections —
the message row with `chat_id = 1` survives, diverging from the spec-side
cascade semantics. -/
theorem delete_chat_leaves_messages :
    (delete_chat dbChat1Msg 1).chat = [] ∧
    (delete_chat dbChat1Msg 1).message =
      [{ id := 1, chat_id := 1, author := "user", text := "hi" }] ∧
    (delete_chat dbChat1Msg 1).message.filter (fun m => m.chat_id != 1) = [] ∧
    delete_chat dbChat1Msg 1 ≠ delete_chat_cascade_spec dbChat1Msg 1 := by
  refine ⟨rfl, rfl, rfl, ?_⟩
  decide

/-! ### Saving then fetching a chat -/

theorem foldr_max_le_of_mem (l : List Nat) (x : Nat) (hx : x ∈ l) :
    x ≤ l.foldr Nat.max 0 := by
  induction l with
  | nil => cases hx
  | cons a rest ih =>
    simp only [List.foldr_cons]
    rcases List.mem_cons.mp hx with h | h
    · subst h
      exact Nat.le_max_left _ _
    · exact le_trans (ih h) (Nat.le_max_right _ _)

theorem next_chat_id_fresh (db : DBState) (c : ChatRow) (hc : c ∈ db.chat) :
    c.id < next_chat_id db := by
  unfold next_chat_id
  exact Nat.lt_succ_of_le (foldr_max_le_of_mem _ _ (List.mem_map_of_mem ChatRow.id hc))

theorem find?_append_of_none {α : Type} (p : α → Bool) (l1 l2 : List α)
    (h : ∀ x ∈ l1, p x = false) :
    List.find? p (l1 ++ l2) = List.find? p l2 := by
  induction l1 with
  | nil => rfl
  | cons a rest ih =>
    have ha := h a (List.mem_cons_self a rest)
    rw [List.cons_append, List.find?_cons_of_neg _ (by simp [ha])]
    exact ih (fun x hx => h x (List.mem_cons_of_mem a hx))

theorem find?_map_replace (i : Nat) (row : ChatRow) (hrow : row.id = i)
    (l : List ChatRow) (hex : l.any (fun c => c.id == i) = true) :
    List.find? (fun c => c.id == i) (l.map (fun c => if c.id == i then row else c)) =
      some row := by
  induction l with
  | nil => simp at hex
  | cons a rest ih =>
    cases ha : (a.id == i) with
    | true =>
      rw [List.map_cons, if_pos ha]
      exact List.find?_cons_of_pos _ (by simp [hrow])
    | false =>
      rw [List.map_cons, if_neg (by simp [ha]),
        List.find?_cons_of_neg _ (by simp [ha])]
      refine ih ?_
      simpa [List.any_cons, ha] using hex

theorem find?_insert_or_replace (db : DBState) (i : Nat) (row : ChatRow)
    (hrow : row.id = i) :
    List.find? (fun c => c.id == i)
      (if db.chat.any (fun c => c.id == i) then
        db.chat.map (fun c => if c.id == i then row else c)
      else db.chat ++ [row]) = some row := by
  by_cases hex : db.chat.any (fun c => c.id == i) = true
  · rw [if_pos hex]
    exact find?_map_replace i row hrow db.chat hex
  · rw [if_neg hex]
    rw [find?_append_of_none _ _ _ (by
      intro x hx
      cases hpx : (x.id == i) with
      | true =>
        exact absurd (List.any_of_mem hx hpx) hex
      | false => rfl)]
    exact List.find?_cons_of_pos _ (by simp [hrow])

theorem find?_after_save_chat {P T : Type} (pc : Codec P) (tc : Codec T)
    (db : DBState) (id : Option Nat) (name model : String)
    (system : Option String) (format : String) (parameters : P)
    (keep_alive : Int) (tools : T) :
    List.find? (fun c =>
        c.id == (save_chat pc tc db id name model system format parameters keep_alive tools).2)
      (save_chat pc tc db id name model system format parameters keep_alive tools).1.chat =
      some { id := (save_chat pc tc db id name model system format parameters keep_alive tools).2,
             name := name, model := model, system := system, format := format,
             parameters := pc.dumps parameters, keep_alive := keep_alive,
             tools := tc.dumps tools } := by
  cases id with
  | some j =>
    by_cases hex : db.chat.any (fun c => c.id == j) = true
    · simp only [save_chat, hex, if_true]
      exact find?_map_replace j _ rfl db.chat hex
    · rw [Bool.not_eq_true] at hex
      simp only [save_chat, hex, Bool.false_eq_true, if_false]
      have hnone : ∀ x ∈ db.chat, (fun c : ChatRow => c.id == j) x = false := by
        intro x hx
        cases hpx : (x.id == j) with
        | true => exact absurd (List.any_of_mem (p := fun c => c.id == j) hx hpx) (by simp [hex])
        | false => exact hpx
      rw [find?_append_of_none _ _ _ hnone]
      exact List.find?_cons_of_pos _ (by simp)
  | none =>
    have hex : db.chat.any (fun c => c.id == next_chat_id db) = false := by
      rw [List.any_eq_false]
      intro c hc
      simp [Nat.ne_of_lt (next_chat_id_fresh db c hc)]
    simp only [save_chat, hex, Bool.false_eq_true, if_false]
    have hnone : ∀ x ∈ db.chat, (fun c : ChatRow => c.id == next_chat_id db) x = false := by
      intro x hx
      cases hpx : (x.id == next_chat_id db) with
      | true => exact absurd (List.any_of_mem (p := fun c => c.id == next_chat_id db) hx hpx) (by simp [hex])
      | false => exact hpx
    rw [find?_append_of_none _ _ _ hnone]
    exact List.find?_cons_of_pos _ (by simp)

/-- C8: saving a chat and fetching it by the returned id yields back the
same name, model, system, format, keep-alive, parameter bag and tool list,
provided the JSON codec round-trips on the two serialized values — the
store itself never alters the stored column text. -/
theorem save_then_get_roundtrip {P T : Type} (pc : Codec P) (tc : Codec T)
    (db : DBState) (id : Option Nat) (name model : String)
    (system : Option String) (format : String) (parameters : P)
    (keep_alive : Int) (tools : T)
    (hp : pc.loads (pc.dumps parameters) = some parameters)
    (ht : tc.loads (tc.dumps tools) = some tools) :
    get_chat pc tc
      (save_chat pc tc db id name model system format parameters keep_alive tools).1
      (save_chat pc tc db id name model system format parameters keep_alive tools).2 =
      some ((save_chat pc tc db id name model system format parameters keep_alive tools).2,
        name, model, system, format, parameters, keep_alive, tools) := by
  unfold get_chat
  rw [find?_after_save_chat pc tc db id name model system format parameters keep_alive tools]
  simp only [hp, ht]

/-- The identity codec on strings, round-tripping by construction; it
stands in for `json.dumps`/`json.loads` in the concrete witness. -/
def idCodec : Codec String :=
  { dumps := fun s => s, loads := fun s => some s }

/-- Witness for C8: saving a fresh chat into the empty database and
fetching it by the returned id gives back every field. -/
theorem save_then_get_roundtrip_witness :
    get_chat idCodec idCodec
      (save_chat idCodec idCodec db0 none "chat" "llama" none "" "pbag" 5 "tlist").1
      (save_chat idCodec idCodec db0 none "chat" "llama" none "" "pbag" 5 "tlist").2 =
      some ((save_chat idCodec idCodec db0 none "chat" "llama" none "" "pbag" 5 "tlist").2,
        "chat", "llama", none, "", "pbag", 5, "tlist") :=
  save_then_get_roundtrip idCodec idCodec db0 none "chat" "llama" none "" "pbag" 5 "tlist"
    rfl rfl

/-! ### Editing a chat: what changes and what does not -/

/-- C9: `edit_chat` leaves the message table, the header, the number of
chat rows, and every row's `id` and `model` unchanged; rows whose id
differs from the target are untouched, and rows whose id matches get
exactly the `name`, `system`, `format`, `parameters`, `keep_alive` and
`tools` columns replaced. -/
theorem edit_chat_frame {P T : Type} (pc : Codec P) (tc : Codec T) (db : DBState)
    (id : Nat) (name : String) (system : Option String) (format : String)
    (parameters : P) (keep_alive : Int) (tools : T) :
    (edit_chat pc tc db id name system format parameters keep_alive tools).message
      = db.message ∧
    (edit_chat pc tc db id name system format parameters keep_alive tools).user_version
      = db.user_version ∧
    (edit_chat pc tc db id name system format parameters keep_alive tools).chat.length
      = db.chat.length ∧
    ∀ (j : Nat) (h : j < db.chat.length)
      (h2 : j < (edit_chat pc tc db id name system format parameters keep_alive tools).chat.length),
      (((edit_chat pc tc db id name system format parameters keep_alive tools).chat.get
          ⟨j, h2⟩).id = (db.chat.get ⟨j, h⟩).id) ∧
      (((edit_chat pc tc db id name system format parameters keep_alive tools).chat.get
          ⟨j, h2⟩).model = (db.chat.get ⟨j, h⟩).model) ∧
      ((db.chat.get ⟨j, h⟩).id ≠ id →
        (edit_chat pc tc db id name system format parameters keep_alive tools).chat.get
          ⟨j, h2⟩ = db.chat.get ⟨j, h⟩) ∧
      ((db.chat.get ⟨j, h⟩).id = id →
        (edit_chat pc tc db id name system format parameters keep_alive tools).chat.get
          ⟨j, h2⟩ =
        { db.chat.get ⟨j, h⟩ with name := name, system := system, format := format,
                                  parameters := pc.dumps parameters,
                                  keep_alive := keep_alive,
                                  tools := tc.dumps tools }) := by
  refine ⟨rfl, rfl, by simp [edit_chat], ?_⟩
  intro j h h2
  have hm : (edit_chat pc tc db id name system format parameters keep_alive tools).chat.get
      ⟨j, h2⟩
      = (fun c : ChatRow => if c.id == id then
          { c with name := name, system := system, format := format,
                   parameters := pc.dumps parameters, keep_alive := keep_alive,
                   tools := tc.dumps tools } else c) (db.chat.get ⟨j, h⟩) := by
    simp [edit_chat, List.get_eq_getElem]
  rw [hm]
  set x := db.chat.get ⟨j, h⟩ with hx
  by_cases hid : x.id = id
  · have hb : (x.id == id) = true := by rw [hid]; simp
    simp only [hb, if_true, and_true, true_and, eq_self_iff_true, implies_true]
    exact fun hne => absurd hid hne
  · have hb : (x.id == id) = false := by
      simp only [beq_eq_false_iff_ne, ne_eq]
      exact hid
    simp only [hb, Bool.false_eq_true, if_false, and_true, true_and,
      eq_self_iff_true, implies_true]
    exact fun he => absurd he hid

/-- A concrete database with two chats and one message. -/
def dbTwoChats : DBState :=
  { user_version := 0,
    chat := [{ id := 1, name := "a", model := "m1", system := none, format := "",
               parameters := "\x7b\x7d", keep_alive := 5, tools := "[]" },
             { id := 2, name := "b", model := "m2", system := none, format := "",
               parameters := "\x7b\x7d", keep_alive := 5, tools := "[]" }],
    message := [{ id := 1, chat_id := 1, author := "user", text := "hi" }] }

/-- Witness for C9: editing chat 1 of the concrete database keeps the
message table and keeps row 0's model. -/
theorem edit_chat_frame_witness :
    (edit_chat idCodec idCodec dbTwoChats 1 "a2" (some "sys") "json" "pb" 7 "tl").message
      = dbTwoChats.message ∧
    ((edit_chat idCodec idCodec dbTwoChats 1 "a2" (some "sys") "json" "pb" 7 "tl").chat.get
      ⟨0, by decide⟩).model = (dbTwoChats.chat.get ⟨0, by decide⟩).model :=
  ⟨(edit_chat_frame idCodec idCodec dbTwoChats 1 "a2" (some "sys") "json" "pb" 7 "tl").1,
   ((edit_chat_frame idCodec idCodec dbTwoChats 1 "a2" (some "sys") "json" "pb" 7 "tl").2.2.2
      0 (by decide) (by decide)).2.1⟩

/-! ### Listing messages: the author conversion is all-or-nothing -/

theorem authorRows_isSome_iff (l : List MessageRow) :
    (authorRows l).isSome = true ↔
      ∀ m ∈ l, (Author.fromText m.author).isSome = true := by
  induction l with
  | nil => simp [authorRows]
  | cons m rest ih =>
    cases ha : Author.fromText m.author with
    | none =>
      simp only [authorRows, ha]
      constructor
      · intro h
        simp at h
      · intro h
        have := h m (List.mem_cons_self m rest)
        rw [ha] at this
        simp at this
    | some a =>
      cases hr : authorRows rest with
      | none =>
        simp only [authorRows, ha, hr]
        constructor
        · intro h
          simp at h
        · intro h
          have hsome : (authorRows rest).isSome = true :=
            ih.mpr (fun m2 hm => h m2 (List.mem_cons_of_mem m hm))
          rw [hr] at hsome
          simp at hsome
      | some l2 =>
        simp only [authorRows, ha, hr]
        constructor
        · intro _ m2 hm2
          rcases List.mem_cons.mp hm2 with h | h
          · subst h
            simp [ha]
          · exact ih.mp (by rw [hr]; rfl) m2 h
        · intro _
          rfl

/-- C10: `get_messages` succeeds exactly when every stored author text of
the chat's rows is a valid `Author` enum value; any other author text
makes the whole call fail rather than return a partial list. -/
theorem get_messages_all_or_nothing (db : DBState) (chat_id : Nat) :
    (get_messages db chat_id).isSome = true ↔
      ∀ m ∈ db.message.filter (fun m => m.chat_id == chat_id),
        (Author.fromText m.author).isSome = true :=
  authorRows_isSome_iff _

/-- A concrete database whose chat 1 messages all have valid authors while
chat 2 holds an invalid author text. -/
def dbMsgs : DBState :=
  { user_version := 0, chat := [],
    message := [{ id := 1, chat_id := 1, author := "user", text := "hi" },
                { id := 2, chat_id := 1, author := "assistant", text := "yo" },
                { id := 3, chat_id := 2, author := "bot", text := "zz" }] }

/-- Witness for C10: listing chat 1 of the concrete database succeeds. -/
theorem get_messages_all_or_nothing_witness :
    (get_messages dbMsgs 1).isSome = true :=
  (get_messages_all_or_nothing dbMsgs 1).mpr (by decide)

end Oterm
